import Mathlib

/-!
Verification of the acquisition-and-batching engine of `bayes_op.py`
(multi-fidelity batch Bayesian optimization).

The Gaussian-process surrogate is opaque in the source (an external
collaborator), so posterior means / standard deviations at the points the
code evaluates them appear here as function parameters, and the fidelity
chosen by `optimise_af` in a batch-filling round appears as an oracle.
Machine floats are modelled by `ℚ` (every constant appearing in the claims:
0.8, 1.6, 0.4, 0.5^7, 1.2, 1e-3, and the costs 4, 2, 1, behaves identically
in binary floating point and in `ℚ` on the traces considered); real-valued
acquisition math (softplus) is modelled over `ℝ`.
-/

/-! ### Trust-region state (source: `TurboState` dataclass, lines 2584-2602) -/

/-- post-init of `TurboState`: `failure_tolerance = ceil(max(4.0/batch_size, dim/batch_size))`. -/
def failure_tolerance_init (dim batch_size : ℕ) : ℕ :=
  (Int.ceil (max ((4 : ℚ) / batch_size) ((dim : ℚ) / batch_size))).toNat

/-- the `TurboState` dataclass. `best_value` is initialized to `-float("inf")` in the
source; the value `-inf` is modelled by `none`. -/
structure TurboState where
  dim : ℕ
  batch_size : ℕ
  length : ℚ
  length_min : ℚ
  length_max : ℚ
  failure_counter : ℕ
  failure_tolerance : ℕ
  success_counter : ℕ
  success_tolerance : ℕ
  best_value : Option ℚ
  restart_triggered : Bool
deriving DecidableEq, Repr

/-- a fresh `TurboState(dim = dim)` with the source's default field values
(`batch_size=1`, `length=0.8`, `length_min=0.5**7 = 1/128`, `length_max=1.6`,
`success_tolerance=10`, `best_value=-inf`). -/
def TurboState.init (dim : ℕ) : TurboState where
  dim := dim
  batch_size := 1
  length := 4/5
  length_min := 1/128
  length_max := 8/5
  failure_counter := 0
  failure_tolerance := failure_tolerance_init dim 1
  success_counter := 0
  success_tolerance := 10
  best_value := none
  restart_triggered := false

/-- the success test `max(Y_next) > state.best_value + 1e-3 * math.fabs(state.best_value)`
of `MF_TuRBO.update_state`. When `best_value` is `-inf` (the fresh state), the right-hand
side is `-inf + inf = NaN` in floats and the comparison evaluates to `False`; the `none`
case models exactly that. -/
def turbo_improves (best : Option ℚ) (y : ℚ) : Bool :=
  match best with
  | none => false
  | some b => decide (b + (1/1000) * |b| < y)

/-- `MF_TuRBO.update_state` (lines 2161-2180), for a single new observation `y_next`
(the caller passes `self.new_obs[i]`, one value). -/
def update_state (state : TurboState) (y_next : ℚ) : TurboState :=
  let state1 :=
    if turbo_improves state.best_value y_next then
      { state with success_counter := state.success_counter + 1, failure_counter := 0 }
    else
      { state with success_counter := 0, failure_counter := state.failure_counter + 1 }
  let state2 :=
    if state1.success_counter = state1.success_tolerance then
      { state1 with length := min (2 * state1.length) state1.length_max, success_counter := 0 }
    else if state1.failure_counter = state1.failure_tolerance then
      { state1 with length := state1.length / 2, failure_counter := 0 }
    else state1
  let state3 :=
    { state2 with best_value := some (max (state2.best_value.getD y_next) y_next) }
  if state3.length < state3.length_min then
    { state3 with restart_triggered := true }
  else state3

/-- iterated `update_state` over a sequence of target-fidelity observations
(`MF_TuRBO.optim_loop` calls `update_state` once per observation at fidelity 0). -/
def turbo_run (state : TurboState) (ys : List ℚ) : TurboState :=
  ys.foldl update_state state

/-- the observation sequence `b+1, b+2, ..., b+c`: consecutive observations that each
improve on the running best by more than the relative tolerance (used to state C8's
improving-run scenario). -/
def incList (b : ℚ) : ℕ → List ℚ
  | 0 => []
  | c + 1 => (b + 1) :: incList (b + 1) c

/-! ### Bias-bound update on ingestion (source: `mfLiveBatch.optim_loop`, lines 261-270,
and `mfUCBPlus.optim_loop`, lines 974-982) -/

/-- the bias-assumption check run when an observation `obs` at fidelity `fid` is ingested:
if `fid != num_of_fidelities - 1`, the code compares `obs` against the posterior mean of
`self.model[fid + 1]` at the query point (`post_mean j` is the posterior mean of
`self.model[j]` there) and, when `diff > bias_constant` and the update flag is set,
assigns `bias_constant = 1.2 * diff`. -/
def bias_check (num_of_fidelities : ℕ) (update_max_bias : Bool) (fid : ℕ) (obs : ℚ)
    (post_mean : ℕ → ℚ) (bias_constant : ℚ) : ℚ :=
  if fid ≠ num_of_fidelities - 1 then
    let diff := obs - post_mean (fid + 1)
    if bias_constant < diff ∧ update_max_bias = true then (6/5) * diff else bias_constant
  else bias_constant

/-- the evolution of `bias_constant` across a trace of ingested observations, each
recorded as `(fid, obs, post_mean)` where `post_mean j` is the posterior mean of
model `j` at that observation's input at ingestion time. -/
def bias_run (num_of_fidelities : ℕ) (update_max_bias : Bool) (b : ℚ)
    (os : List (ℕ × ℚ × (ℕ → ℚ))) : ℚ :=
  os.foldl (fun b o => bias_check num_of_fidelities update_max_bias o.1 o.2.1 o.2.2 b) b

/-- the claim to refute, stated from C4's words: whenever an observation at a non-target
fidelity (`fid > 0`) is ingested, its value is compared against the posterior mean of the
next-higher fidelity (`fid - 1`) and, whenever that empirical gap exceeds the current
(nonnegative) bound, the bound is inflated (so it strictly increases). -/
def claim_C4_prop : Prop :=
  ∀ (num_of_fidelities : ℕ) (update_max_bias : Bool) (fid : ℕ) (obs : ℚ)
    (post_mean : ℕ → ℚ) (b : ℚ),
    0 ≤ b → 0 < fid → b < obs - post_mean (fid - 1) →
    b < bias_check num_of_fidelities update_max_bias fid obs post_mean b

/-! ### Running maximum of observed values (source: `mfLiveBatch.__init__` line 95,
`mfLiveBatch.optim_loop` lines 283-284) -/

/-- evolution of `self.max_value[fid]`: initialized to `init` (the source uses 0) and
updated by `self.max_value[fid] = max(self.max_value[fid], self.new_obs[i])` for every
value observed at that fidelity. -/
def max_value_run (init : ℚ) (ys : List ℚ) : ℚ :=
  ys.foldl max init

/-- the record C6 claims the code keeps: the running maximum of the observed values
alone (first observed value as the base), with no initial 0 participating. -/
def max_value_claimed (y : ℚ) (ys : List ℚ) : ℚ :=
  ys.foldl max y

/-! ### Batch filling under the cost budget (source: `mfLiveBatch.optim_loop`
lines 227-247, `mfUCB.optim_loop` lines 648-665, `mfUCBPlus.optim_loop` lines 941-958);
claims C2 and C3 fix `cost_budget = 4` and per-fidelity costs `[4, 2, 1]`. -/

/-- the per-fidelity costs `env.func.fidelity_costs = [4, 2, 1]` fixed by the claims. -/
def fidelity_costs : Fin 3 → ℕ
  | 0 => 4
  | 1 => 2
  | 2 => 1

/-- the cost budget fixed by the claims (also the constructor default). -/
def cost_budget : ℕ := 4

/-- the batch-filling loop of `mfLiveBatch.optim_loop`:
`while self.batch_costs < self.cost_budget:` obtain a new query from `optimise_af`
(whose returned fidelity depends on the opaque GP posterior: `oracle k` is the fidelity
of the `k`-th pick of the round) and add its cost. Returns the final `batch_costs`
and the list of fidelities dispatched this round. -/
def fill_batch (oracle : ℕ → Fin 3) (k : ℕ) (cost : ℕ) : ℕ × List (Fin 3) :=
  if cost < cost_budget then
    let rest := fill_batch oracle (k + 1) (cost + fidelity_costs (oracle k))
    (rest.1, oracle k :: rest.2)
  else (cost, [])
termination_by cost_budget - cost
decreasing_by
  have h := (by decide : ∀ m : Fin 3, 1 ≤ fidelity_costs m) (oracle k)
  omega

/-- the random batch-filling loop of `mfUCB.optim_loop` / `mfUCBPlus.optim_loop`:
after the primary query got fidelity `new_M`, `while self.batch_costs < self.cost_budget:`
draw a uniformly random point and append it with the SAME `new_M` (the variable is
reused, not reset), adding `fidelity_costs[int(new_M)]` each time. Returns the final
cost and the filler fidelities. -/
def mfUCB_fill (new_M : Fin 3) (cost : ℕ) : ℕ × List (Fin 3) :=
  if cost < cost_budget then
    let rest := mfUCB_fill new_M (cost + fidelity_costs new_M)
    (rest.1, new_M :: rest.2)
  else (cost, [])
termination_by cost_budget - cost
decreasing_by
  have h := (by decide : ∀ m : Fin 3, 1 ≤ fidelity_costs m) new_M
  omega

/-- one dispatch round of `mfUCB.optim_loop` with no query outstanding: the primary
query at fidelity `new_M` is costed, then the batch space is filled randomly.
Returns the final cost and all dispatched fidelities (primary first). -/
def mfUCB_round (new_M : Fin 3) (batch_costs : ℕ) : ℕ × List (Fin 3) :=
  let cost1 := batch_costs + fidelity_costs new_M
  let rest := mfUCB_fill new_M cost1
  (rest.1, new_M :: rest.2)

/-- the round C3 claims the code performs, stated from the claim's words: the filler
queries are submitted at the cheapest fidelity (index `num_of_fidelities - 1 = 2`). -/
def mfUCB_fill_claimed (cost : ℕ) : ℕ × List (Fin 3) :=
  if cost < cost_budget then
    let rest := mfUCB_fill_claimed (cost + fidelity_costs 2)
    (rest.1, (2 : Fin 3) :: rest.2)
  else (cost, [])
termination_by cost_budget - cost
decreasing_by
  have h := (by decide : ∀ m : Fin 3, 1 ≤ fidelity_costs m) (2 : Fin 3)
  omega

/-- the claimed round: primary query at `new_M`, fillers at the cheapest fidelity. -/
def mfUCB_round_claimed (new_M : Fin 3) (batch_costs : ℕ) : ℕ × List (Fin 3) :=
  let cost1 := batch_costs + fidelity_costs new_M
  let rest := mfUCB_fill_claimed cost1
  (rest.1, new_M :: rest.2)

/-! ### Cold start of `optimise_af` (source: lines 482-486, 782-786, 1401-1404,
2019-2022, 2151-2154; the guard is the first statement of every variant) -/

/-- the `optimise_af` entry shared by every variant (`mfLiveBatch`, `mfUCB`,
`MultiTaskUCBwILP`, `MF_MES`, `MF_TuRBO`): `if self.current_time == 0:` return a
uniformly sampled point (`rand_point`, the injected random draw) at the cheapest
fidelity `num_of_fidelities - 1`; otherwise run the variant's model-based optimizer
(`model_based`, covering grid search and continuous optimization alike). -/
def optimise_af {α : Type} (current_time : ℕ) (num_of_fidelities : ℕ) (rand_point : α)
    (model_based : Unit → α × ℕ) : α × ℕ :=
  if current_time = 0 then (rand_point, num_of_fidelities - 1) else model_based ()

/-! ### The `mfUCBPlus` beta update (source: `mfUCBPlus.optim_loop` lines 933-936,
`mfLiveBatch.__init__` lines 84-89) -/

/-- a Python runtime value, as far as the beta-update statement needs: the integer
`self.num_of_fidelities` or a list. -/
inductive PyValue where
  | intVal : Int → PyValue
  | listVal : List PyValue → PyValue

/-- the Python exception raised by the statement. -/
inductive PyError where
  | typeError : PyError
deriving DecidableEq

/-- Python iteration `for x in v`: an `int` is not iterable and raises `TypeError`;
a list yields its elements. -/
def pyIter : PyValue → Except PyError (List PyValue)
  | PyValue.intVal _ => Except.error PyError.typeError
  | PyValue.listVal l => Except.ok l

/-- from `mfLiveBatch.__init__` (inherited by `mfUCBPlus`):
`if beta == None: self.fixed_beta = False ... else: self.fixed_beta = True`. -/
def fixed_beta_of_beta (beta : Option ℚ) : Bool :=
  beta.isSome

/-- `mfUCBPlus.optim_loop`: its first statement is the beta update
`if self.fixed_beta == False: for fid in self.num_of_fidelities: ...`, which iterates
over the integer `self.num_of_fidelities` itself. Everything after it (acquisition
optimization, the dispatch `self.env.step(new_Xs, new_Ms)` and the ingestion) is
abstracted into `loop_rest`; the returned value is `loop_rest`'s outcome, or the
uncaught exception. -/
def mfUCBPlus_optim_loop {D : Type} (fixed_beta : Bool) (num_of_fidelities : ℕ)
    (loop_rest : Unit → D) : Except PyError D :=
  if fixed_beta = false then
    match pyIter (PyValue.intVal num_of_fidelities) with
    | Except.error e => Except.error e
    | Except.ok _ => Except.ok (loop_rest ())
  else Except.ok (loop_rest ())

/-! ### The fused acquisition function (source: `mfLiveBatch.build_af`, lines 420-476) -/

/-- the belief state `mfLiveBatch.build_af` reads, with the opaque GP posteriors as
functions of the input point (of abstract type `α`). `mean i` / `std i` are the
posterior of `self.model[i]` (or the prior constants `mean_constant` / `constant`
when fidelity `i` has no data — constant functions); `mean_bias i` / `std_bias i`
are the bias model's posterior (or the fallback `0` and
`bias_list[i] * bias_constant / beta[i]`). `batch` is
`zip(current_batch, current_batch_fids)` zipped with `lipschitz_batch_list`:
each penalty point carries its fidelity and its Lipschitz constant.
`dist p x` is `torch.norm(penalty_point - X)` per row. -/
structure AFInput (F : ℕ) (α : Type) where
  mean : Fin F → α → ℝ
  std : Fin F → α → ℝ
  mean_bias : Fin F → α → ℝ
  std_bias : Fin F → α → ℝ
  beta : Fin F → ℝ
  soft_plus_transform : Bool
  max_value : Fin F → ℝ
  penalization_gamma : ℝ
  dist : α → α → ℝ
  batch : List (α × Fin F × ℝ)

/-- the per-fidelity upper confidence bound of `build_af`:
`ucb[i, :] = mean + beta[i] * std + (mean_bias + beta[i] * std_bias)`. -/
noncomputable def ucb_fid {F : ℕ} {α : Type} (s : AFInput F α) (i : Fin F) (x : α) : ℝ :=
  s.mean i x + s.beta i * s.std i x + (s.mean_bias i x + s.beta i * s.std_bias i x)

/-- the optional softplus transform `ucb = torch.log(1 + torch.exp(ucb))`. -/
noncomputable def ucb_transformed {F : ℕ} {α : Type} (s : AFInput F α) (i : Fin F) (x : α) : ℝ :=
  if s.soft_plus_transform then Real.log (1 + Real.exp (ucb_fid s i x)) else ucb_fid s i x

/-- the local-penalization factor of one penalty point `p = (point, fidelity, lipschitz)`:
`r_j = (max_value[fid] - mean_pp) / lipschitz`,
`denominator = r_j + gamma * std_pp / lipschitz`,
`penaliser = min(norm(x - p) / denominator, 1)`. -/
noncomputable def penaliser {F : ℕ} {α : Type} (s : AFInput F α) (p : α × Fin F × ℝ) (x : α) : ℝ :=
  let r_j := (s.max_value p.2.1 - s.mean p.2.1 p.1) / p.2.2
  let denominator := r_j + s.penalization_gamma * s.std p.2.1 p.1 / p.2.2
  min (s.dist p.1 x / denominator) 1

/-- the per-fidelity acquisition row after the penalization loop: each batch member
multiplies the row of its own fidelity by its penaliser
(`ucb[fidelity, :] = ucb[fidelity, :] * penaliser`). -/
noncomputable def penalised_ucb {F : ℕ} {α : Type} (s : AFInput F α) (x : α) : Fin F → ℝ :=
  s.batch.foldl
    (fun u p => Function.update u p.2.1 (u p.2.1 * penaliser s p x))
    (fun i => ucb_transformed s i x)

/-- `mfLiveBatch.build_af` at one candidate row: the returned value
`min_ucb, _ = torch.min(ucb, dim=0)` is the minimum of the penalised per-fidelity rows. -/
noncomputable def build_af {F : ℕ} {α : Type} [NeZero F] (s : AFInput F α) (x : α) : ℝ :=
  Finset.univ.inf' ⟨(0 : Fin F), Finset.mem_univ 0⟩ (penalised_ucb s x)

/-- example acquisition input used to witness C1 at a concrete instance. -/
noncomputable def AF_example : AFInput 2 Unit where
  mean := fun _ _ => 1
  std := fun _ _ => 1
  mean_bias := fun _ _ => 0
  std_bias := fun _ _ => 0
  beta := fun _ => 1
  soft_plus_transform := false
  max_value := fun _ => 0
  penalization_gamma := 1
  dist := fun _ _ => 0
  batch := []

/-! ## Theorems -/

/-- C9: whenever `current_time == 0`, `optimise_af` returns the uniformly drawn random
point together with the cheapest fidelity `num_of_fidelities - 1`, and its result does
not depend on the model-based branch at all (any acquisition configuration — grid
search or continuous optimization, any variant — yields the same output). -/
theorem C9_cold_start {α : Type} (F : ℕ) (r : α) (k k' : Unit → α × ℕ) :
    optimise_af 0 F r k = (r, F - 1) ∧ optimise_af 0 F r k = optimise_af 0 F r k' := by
  constructor <;> simp [optimise_af]

/-- C10: an `mfUCBPlus` instance constructed with the default `beta = None` has
`fixed_beta = False`, so every call to its `optim_loop` hits
`for fid in self.num_of_fidelities:` — iterating the integer itself — and raises
`TypeError` before the rest of the loop (in particular before `env.step` issues any
query); no optimization iteration can complete. -/
theorem C10_mfUCBPlus_default_beta_raises {D : Type} (F : ℕ) (loop_rest : Unit → D) :
    mfUCBPlus_optim_loop (fixed_beta_of_beta none) F loop_rest =
      Except.error PyError.typeError := by
  simp [mfUCBPlus_optim_loop, fixed_beta_of_beta, pyIter]

/-- C4 counterexample: the code's ingestion check is gated on
`fid != num_of_fidelities - 1` and compares against the next-cheaper fidelity
`fid + 1`, not on `fid > 0` against `fid - 1`. With two fidelities, an observation
at the non-target fidelity `fid = 1` whose gap to fidelity 0's posterior mean vastly
exceeds the bound triggers no comparison at all and leaves `bias_constant` unchanged,
refuting the claim. -/
theorem C4_counterexample : ¬ claim_C4_prop := by
  intro h
  have h1 := h 2 true 1 1 (fun _ => 0) (1/10) (by norm_num) (by norm_num) (by norm_num)
  rw [show bias_check 2 true 1 1 (fun _ => 0) (1/10) = 1/10 from by simp [bias_check]] at h1
  exact lt_irrefl _ h1

/-- C4 amended: whenever an observation at any non-cheapest fidelity
(`fid ≠ num_of_fidelities - 1`) is ingested with the update flag set, its value is
compared against the posterior mean of the next-cheaper fidelity (`fid + 1`) at the
same input, and if the empirical gap exceeds the current nonnegative bound, the bound
`bias_constant` is set to `1.2 ×` that gap — a strict increase. -/
theorem C4_bias_check_amended (F : ℕ) (u : Bool) (fid : ℕ) (obs : ℚ) (pm : ℕ → ℚ)
    (b : ℚ) (hb : 0 ≤ b) (hfid : fid ≠ F - 1) (hgap : b < obs - pm (fid + 1))
    (hu : u = true) :
    bias_check F u fid obs pm b = (6/5) * (obs - pm (fid + 1)) ∧
      b < bias_check F u fid obs pm b := by
  subst hu
  have heq : bias_check F true fid obs pm b = (6/5) * (obs - pm (fid + 1)) := by
    simp [bias_check, hfid, hgap]
  refine ⟨heq, ?_⟩
  rw [heq]
  nlinarith [hgap, hb]

/-- C4 witness: a concrete non-cheapest-fidelity ingestion (three fidelities,
observation at the target fidelity 0, gap 1 against the bound 1/10) where the bound
is reset to 1.2 × 1 = 6/5. -/
theorem C4_bias_check_amended_witness :
    bias_check 3 true 0 1 (fun _ => 0) (1/10) = (6/5) * ((1 : ℚ) - (fun _ => (0 : ℚ)) (0 + 1)) ∧
      (1 : ℚ)/10 < bias_check 3 true 0 1 (fun _ => 0) (1/10) :=
  C4_bias_check_amended 3 true 0 1 (fun _ => 0) (1/10) (by norm_num) (by norm_num)
    (by norm_num) rfl

/-- helper: closed form of `bias_check` as a single conditional. -/
theorem bias_check_eq (F : ℕ) (u : Bool) (fid : ℕ) (obs : ℚ) (pm : ℕ → ℚ) (b : ℚ) :
    bias_check F u fid obs pm b =
      if fid ≠ F - 1 ∧ b < obs - pm (fid + 1) ∧ u = true
      then (6/5) * (obs - pm (fid + 1)) else b := by
  unfold bias_check
  by_cases h1 : fid ≠ F - 1
  · simp [h1]
  · simp [h1]

/-- helper: one bias-check step never decreases a nonnegative bound. -/
theorem bias_check_le (F : ℕ) (u : Bool) (fid : ℕ) (obs : ℚ) (pm : ℕ → ℚ) {b : ℚ}
    (hb : 0 ≤ b) : b ≤ bias_check F u fid obs pm b := by
  rw [bias_check_eq]
  split_ifs with h
  · nlinarith [h.2.1, hb]
  · exact le_refl b

/-- helper: `bias_constant` never decreases along a whole ingestion trace. -/
theorem bias_run_le (F : ℕ) (u : Bool) (os : List (ℕ × ℚ × (ℕ → ℚ))) :
    ∀ {b : ℚ}, 0 ≤ b → b ≤ bias_run F u b os := by
  induction os with
  | nil => intro b _; exact le_refl b
  | cons o os ih =>
    intro b hb
    have hstep := bias_check_le F u o.1 o.2.1 o.2.2 hb
    exact le_trans hstep (ih (le_trans hb hstep))

/-- C5: starting from a nonnegative bound (the source initializes `bias_constant` to
0.1, or 0 in the single-query variants), `bias_constant` never decreases across the
optimization loop; and any step that changes it does so only when the observed gap
at a non-cheapest fidelity exceeds the current bound, in which case the bound strictly
increases. -/
theorem C5_bias_constant_monotone (F : ℕ) (u : Bool) (b : ℚ)
    (os : List (ℕ × ℚ × (ℕ → ℚ))) (hb : 0 ≤ b) :
    b ≤ bias_run F u b os ∧
      ∀ (fid : ℕ) (obs : ℚ) (pm : ℕ → ℚ) (c : ℚ), 0 ≤ c →
        bias_check F u fid obs pm c ≠ c →
        fid ≠ F - 1 ∧ c < obs - pm (fid + 1) ∧ c < bias_check F u fid obs pm c := by
  refine ⟨bias_run_le F u os hb, ?_⟩
  intro fid obs pm c hc hne
  rw [bias_check_eq] at hne
  by_cases hcond : fid ≠ F - 1 ∧ c < obs - pm (fid + 1) ∧ u = true
  · refine ⟨hcond.1, hcond.2.1, ?_⟩
    have hne2 : bias_check F u fid obs pm c ≠ c := by rw [bias_check_eq]; exact hne
    exact lt_of_le_of_ne (bias_check_le F u fid obs pm hc) (Ne.symm hne2)
  · exact absurd (if_neg hcond) hne

/-- C5 witness: a concrete trace from the default bound 0.1 (two observations, the
first triggering an inflation) along which the bound does not decrease. -/
theorem C5_bias_constant_monotone_witness :
    (1 : ℚ)/10 ≤ bias_run 3 true (1/10) [(0, 2, fun _ => 0), (2, 5, fun _ => 0)] :=
  (C5_bias_constant_monotone 3 true (1/10) [(0, 2, fun _ => 0), (2, 5, fun _ => 0)]
    (by norm_num)).1

/-- helper: the initial value is a lower bound of the running maximum. -/
theorem le_max_value_run (ys : List ℚ) : ∀ init : ℚ, init ≤ max_value_run init ys := by
  induction ys with
  | nil => intro init; exact le_refl init
  | cons y ys ih =>
    intro init
    exact le_trans (le_max_left init y) (ih (max init y))

/-- helper: the running maximum bounds every observed value. -/
theorem mem_le_max_value_run (ys : List ℚ) :
    ∀ init : ℚ, ∀ y ∈ ys, y ≤ max_value_run init ys := by
  induction ys with
  | nil => intro init y hy; cases hy
  | cons a t ih =>
    intro init y hy
    rcases List.mem_cons.mp hy with h | h
    · subst h
      exact le_trans (le_max_right init y) (le_max_value_run t (max init y))
    · exact ih (max init a) y h

/-- helper: the running maximum is the initial value or one of the observed values. -/
theorem max_value_run_attained (ys : List ℚ) :
    ∀ init : ℚ, max_value_run init ys = init ∨ max_value_run init ys ∈ ys := by
  induction ys with
  | nil => intro init; exact Or.inl rfl
  | cons a t ih =>
    intro init
    rcases ih (max init a) with h | h
    · rcases max_choice init a with hm | hm
      · exact Or.inl (by rw [max_value_run, List.foldl_cons, ← max_value_run] at *; rw [h, hm])
      · refine Or.inr (List.mem_cons.mpr (Or.inl ?_))
        rw [max_value_run, List.foldl_cons, ← max_value_run, h, hm]
    · exact Or.inr (List.mem_cons.mpr (Or.inr h))

/-- C6 counterexample: after a single observed value `-1` at a fidelity, the code's
record (initialized to 0) is `0`, while the running maximum of the observed values is
`-1`; the two differ, so `max_value[f]` does not equal the running maximum of the
observed values. -/
theorem C6_counterexample :
    max_value_run 0 [(-1 : ℚ)] = 0 ∧ max_value_claimed (-1) [] = -1 ∧ (0 : ℚ) ≠ -1 := by
  refine ⟨?_, rfl, by norm_num⟩
  simp [max_value_run]

/-- C6 amended: `max_value[f]` equals the maximum of its initial value 0 and the values
observed at fidelity `f` (it is the initial value or an observed value, bounds both
below, and extending the trace never decreases it) — hence it is monotonically
non-decreasing across iterations, but it equals the running maximum of the observed
values alone only when some observed value is ≥ 0. -/
theorem C6_max_value_amended (init : ℚ) (ys : List ℚ) :
    init ≤ max_value_run init ys ∧
      (∀ y ∈ ys, y ≤ max_value_run init ys) ∧
      (max_value_run init ys = init ∨ max_value_run init ys ∈ ys) ∧
      ∀ zs : List ℚ, max_value_run init ys ≤ max_value_run init (ys ++ zs) := by
  refine ⟨le_max_value_run ys init, mem_le_max_value_run ys init,
    max_value_run_attained ys init, ?_⟩
  intro zs
  have : max_value_run init (ys ++ zs) = max_value_run (max_value_run init ys) zs := by
    simp [max_value_run, List.foldl_append]
  rw [this]
  exact le_max_value_run zs (max_value_run init ys)

/-- C6 witness: a concrete observed value is bounded by the record on a concrete trace. -/
theorem C6_max_value_amended_witness :
    (-1 : ℚ) ≤ max_value_run 0 [(-1 : ℚ), 2] :=
  (C6_max_value_amended 0 [(-1 : ℚ), 2]).2.1 (-1) (by simp)

/-- C2 counterexample: a reachable dispatch round (three cheapest-fidelity picks at
cost 1 each, then a target-fidelity pick at cost 4 — the variance-threshold selector
never consults the remaining budget) accumulates total cost 7, exceeding the budget 4:
the loop only checks `batch_costs < cost_budget` before a pick, not after. -/
theorem C2_counterexample :
    (fill_batch (fun kk => if kk < 3 then 2 else 0) 0 0).1 = 7 ∧ ¬ (7 ≤ cost_budget) := by
  constructor
  · simp [fill_batch, fidelity_costs, cost_budget]
  · simp [cost_budget]

/-- helper: the batch-filling loop's final cost never exceeds `max cost 7`
(with costs `[4,2,1]` and budget 4: the last pick starts below 4 and adds at most 4). -/
theorem fill_batch_cost_le (oracle : ℕ → Fin 3) (k cost : ℕ) :
    (fill_batch oracle k cost).1 ≤ max cost 7 := by
  induction k, cost using fill_batch.induct oracle with
  | case1 k cost h ih =>
    rw [fill_batch, if_pos h]
    simp only
    have hc := (by decide : ∀ m : Fin 3, fidelity_costs m ≤ 4) (oracle k)
    unfold cost_budget at h
    omega
  | case2 k cost h =>
    rw [fill_batch, if_neg h]
    simp

/-- C2 amended: in every dispatch round of `mfLiveBatch.optim_loop`, picks are only
made while the accumulated cost is strictly below the budget 4, so a round beginning
below budget dispatches at least one query and ends with total cost at most
`3 + 4 = 7` (not 4: the final pick may overshoot); a round beginning at or above the
budget dispatches no query at all. -/
theorem C2_fill_batch_amended (oracle : ℕ → Fin 3) (k cost : ℕ) :
    (cost < cost_budget → (fill_batch oracle k cost).2 ≠ []) ∧
      (fill_batch oracle k cost).1 ≤ max cost 7 ∧
      (cost_budget ≤ cost → fill_batch oracle k cost = (cost, [])) := by
  refine ⟨?_, fill_batch_cost_le oracle k cost, ?_⟩
  · intro h
    rw [fill_batch, if_pos h]
    simp
  · intro h
    rw [fill_batch, if_neg (by omega)]

/-- C2 witness: from a fresh round (cost 0, below the budget) at least one query is
dispatched. -/
theorem C2_fill_batch_amended_witness :
    (fill_batch (fun _ => 2) 0 0).2 ≠ [] :=
  (C2_fill_batch_amended (fun _ => 2) 0 0).1 (by simp [cost_budget])

/-- C3 counterexample: when the primary query of `mfUCB.optim_loop` is selected at
fidelity 1 (cost 2) with budget 4, the code dispatches `[1, 1]` — the filler query
reuses the primary query's fidelity `new_M` — while the claim's round would dispatch
`[1, 2, 2]`, filling with the cheapest fidelity `num_of_fidelities - 1 = 2`. -/
theorem C3_counterexample :
    (mfUCB_round 1 0).2 = [1, 1] ∧ (mfUCB_round_claimed 1 0).2 = [1, 2, 2] ∧
      ((1 : Fin 3)) ≠ 2 := by
  refine ⟨?_, ?_, by decide⟩
  · simp [mfUCB_round, mfUCB_fill, fidelity_costs, cost_budget]
  · simp [mfUCB_round_claimed, mfUCB_fill_claimed, fidelity_costs, cost_budget]

/-- helper: every filler query of the synchronous random fill carries the primary
query's fidelity. -/
theorem mfUCB_fill_fid (new_M : Fin 3) (cost : ℕ) :
    ∀ f ∈ (mfUCB_fill new_M cost).2, f = new_M := by
  induction cost using mfUCB_fill.induct new_M with
  | case1 cost h ih =>
    rw [mfUCB_fill, if_pos h]
    intro f hf
    rcases List.mem_cons.mp hf with hh | hh
    · exact hh
    · exact ih f hh
  | case2 cost h =>
    rw [mfUCB_fill, if_neg h]
    intro f hf
    cases hf

/-- C3 amended: in the synchronous single-query variants, after the one primary query
is chosen at fidelity `new_M`, the remaining batch space under the cost budget is
filled with uniformly random points submitted at that same fidelity `new_M` (the
variable is reused), not at the cheapest fidelity: every fidelity dispatched in the
round equals the primary's. -/
theorem C3_mfUCB_round_amended (new_M : Fin 3) (batch_costs : ℕ) :
    ∀ f ∈ (mfUCB_round new_M batch_costs).2, f = new_M := by
  intro f hf
  unfold mfUCB_round at hf
  simp only at hf
  rcases List.mem_cons.mp hf with hh | hh
  · exact hh
  · exact mfUCB_fill_fid new_M (batch_costs + fidelity_costs new_M) f hh

/-- C3 witness: in the concrete round with primary fidelity 1 and initial cost 0, the
first dispatched query of the round carries fidelity 1. -/
theorem C3_mfUCB_round_amended_witness :
    (mfUCB_round 1 0).2.headI = 1 :=
  C3_mfUCB_round_amended 1 0 (mfUCB_round 1 0).2.headI
    (by simp [mfUCB_round, mfUCB_fill, fidelity_costs, cost_budget])

/-- C1: `mfLiveBatch.build_af` returns, per candidate row, the minimum over all
fidelities of that fidelity's bias-adjusted, penalized UCB value (it is a lower bound
of every row and attained at some fidelity); in particular the fused acquisition value
never exceeds the target-fidelity (fidelity 0) penalized UCB at that point. -/
theorem C1_build_af_min_le_target {α : Type} (F : ℕ) [NeZero F] (s : AFInput F α)
    (x : α) :
    (∀ i, build_af s x ≤ penalised_ucb s x i) ∧
      (∃ i, build_af s x = penalised_ucb s x i) ∧
      build_af s x ≤ penalised_ucb s x 0 := by
  refine ⟨fun i => Finset.inf'_le _ (Finset.mem_univ i), ?_,
    Finset.inf'_le _ (Finset.mem_univ 0)⟩
  obtain ⟨i, -, hi⟩ := Finset.exists_mem_eq_inf'
    (⟨(0 : Fin F), Finset.mem_univ 0⟩ : (Finset.univ : Finset (Fin F)).Nonempty)
    (penalised_ucb s x)
  exact ⟨i, hi⟩

/-- C1 witness: on a concrete two-fidelity input the fused acquisition value is
bounded by the target-fidelity row. -/
theorem C1_build_af_min_le_target_witness :
    build_af AF_example () ≤ penalised_ucb AF_example () 0 :=
  (C1_build_af_min_le_target 2 AF_example ()).2.2

/-- helper: a fresh best value (`-inf`) never counts as a success. -/
theorem turbo_improves_none (y : ℚ) : turbo_improves none y = false := rfl

/-- helper: the success test against a finite best value. -/
theorem turbo_improves_some (b y : ℚ) :
    turbo_improves (some b) y = true ↔ b + (1/1000) * |b| < y := by
  simp [turbo_improves]

/-- helper: a sufficient success condition for nonnegative best values. -/
theorem turbo_improves_of_lt {b y : ℚ} (hb : 0 ≤ b) (h : b + b / 1000 < y) :
    turbo_improves (some b) y = true := by
  rw [turbo_improves_some, abs_of_nonneg hb]
  linarith

/-- helper: one-step unfolding of `turbo_run`. -/
theorem turbo_run_cons (s : TurboState) (y : ℚ) (ys : List ℚ) :
    turbo_run s (y :: ys) = turbo_run (update_state s y) ys := rfl

/-- helper: `turbo_run` on the empty trace. -/
theorem turbo_run_nil (s : TurboState) : turbo_run s [] = s := rfl

/-- helper: `turbo_run` splits over concatenated traces. -/
theorem turbo_run_append (s : TurboState) (xs ys : List ℚ) :
    turbo_run s (xs ++ ys) = turbo_run (turbo_run s xs) ys := by
  simp [turbo_run, List.foldl_append]

/-- helper: a failing observation that does not reach the failure tolerance. -/
theorem update_state_fail (s : TurboState) (y : ℚ)
    (h : turbo_improves s.best_value y = false)
    (h1 : (0 : ℕ) ≠ s.success_tolerance)
    (h2 : s.failure_counter + 1 ≠ s.failure_tolerance)
    (h3 : ¬ s.length < s.length_min) :
    update_state s y =
      { s with
        success_counter := 0,
        failure_counter := s.failure_counter + 1,
        best_value := some (max (s.best_value.getD y) y) } := by
  simp [update_state, h, h1, h2, h3]

/-- helper: a failing observation below the failure tolerance, with the restart flag
tracked explicitly. -/
theorem update_state_fail_free (s : TurboState) (y : ℚ)
    (h : turbo_improves s.best_value y = false)
    (h1 : (0 : ℕ) ≠ s.success_tolerance)
    (h2 : s.failure_counter + 1 ≠ s.failure_tolerance) :
    update_state s y =
      { s with
        success_counter := 0,
        failure_counter := s.failure_counter + 1,
        best_value := some (max (s.best_value.getD y) y),
        restart_triggered := s.restart_triggered || decide (s.length < s.length_min) } := by
  by_cases h3 : s.length < s.length_min <;> simp [update_state, h, h1, h2, h3]

/-- helper: a failing observation that reaches the failure tolerance halves `length`. -/
theorem update_state_fail_shrink (s : TurboState) (y : ℚ)
    (h : turbo_improves s.best_value y = false)
    (h1 : (0 : ℕ) ≠ s.success_tolerance)
    (h2 : s.failure_counter + 1 = s.failure_tolerance) :
    update_state s y =
      { s with
        success_counter := 0,
        failure_counter := 0,
        length := s.length / 2,
        best_value := some (max (s.best_value.getD y) y),
        restart_triggered := s.restart_triggered || decide (s.length / 2 < s.length_min) } := by
  by_cases h3 : s.length / 2 < s.length_min <;> simp [update_state, h, h1, h2, h3]

/-- helper: an improving observation that does not reach the success tolerance. -/
theorem update_state_improve (s : TurboState) (y : ℚ)
    (h : turbo_improves s.best_value y = true)
    (h1 : s.success_counter + 1 ≠ s.success_tolerance)
    (h2 : (0 : ℕ) ≠ s.failure_tolerance)
    (h3 : ¬ s.length < s.length_min) :
    update_state s y =
      { s with
        success_counter := s.success_counter + 1,
        failure_counter := 0,
        best_value := some (max (s.best_value.getD y) y) } := by
  simp [update_state, h, h1, h2, h3]

/-- helper: an improving observation that reaches the success tolerance doubles
`length` (clamped at `length_max`) and resets the success counter. -/
theorem update_state_improve_expand (s : TurboState) (y : ℚ)
    (h : turbo_improves s.best_value y = true)
    (h1 : s.success_counter + 1 = s.success_tolerance)
    (h3 : ¬ min (2 * s.length) s.length_max < s.length_min) :
    update_state s y =
      { s with
        success_counter := 0,
        failure_counter := 0,
        length := min (2 * s.length) s.length_max,
        best_value := some (max (s.best_value.getD y) y) } := by
  simp [update_state, h, h1, h3]

/-- helper: the first observation fed to a state whose best value is still `-inf`
always counts as a failure and records the observation as the best value. -/
theorem update_state_none_fail (s : TurboState) (y : ℚ) (hb : s.best_value = none)
    (h1 : (0 : ℕ) ≠ s.success_tolerance) (h2 : s.failure_counter + 1 ≠ s.failure_tolerance)
    (h3 : ¬ s.length < s.length_min) :
    update_state s y =
      { s with
        success_counter := 0,
        failure_counter := s.failure_counter + 1,
        best_value := some y } := by
  rw [update_state_fail s y (by rw [hb]; rfl) h1 h2 h3, hb]
  simp

/-- helper: feeding exactly enough non-improving observations to reach the failure
tolerance halves `length` once and resets the failure counter. -/
theorem turbo_run_zeros (k : ℕ) : ∀ s : TurboState, 1 ≤ k → s.best_value = some 0 →
    (0 : ℕ) ≠ s.success_tolerance →
    s.failure_counter + k = s.failure_tolerance →
    ∃ r : Bool, turbo_run s (List.replicate k 0) =
      { s with
        length := s.length / 2,
        success_counter := 0,
        failure_counter := 0,
        best_value := some 0,
        restart_triggered := r } := by
  induction k with
  | zero => intro s hk; omega
  | succ k ih =>
    intro s hk hb hst hfc
    have himp : turbo_improves s.best_value 0 = false := by
      rw [hb]
      simp [turbo_improves]
    rw [List.replicate_succ, turbo_run_cons]
    rcases Nat.eq_zero_or_pos k with hk0 | hk1
    · subst hk0
      have hsh : s.failure_counter + 1 = s.failure_tolerance := hfc
      rw [update_state_fail_shrink s 0 himp hst hsh, List.replicate, turbo_run_nil]
      refine ⟨s.restart_triggered || decide (s.length / 2 < s.length_min), ?_⟩
      simp [hb]
    · have h2 : s.failure_counter + 1 ≠ s.failure_tolerance := by omega
      rw [update_state_fail_free s 0 himp hst h2]
      obtain ⟨r, hr⟩ := ih
        { s with
          success_counter := 0,
          failure_counter := s.failure_counter + 1,
          best_value := some (max (s.best_value.getD 0) 0),
          restart_triggered := s.restart_triggered || decide (s.length < s.length_min) }
        hk1 (by simp [hb]) hst (by simp; omega)
      refine ⟨r, ?_⟩
      rw [hr]

/-- helper: `j` consecutive failure-tolerance blocks of non-improving observations
halve `length` exactly `j` times in total. -/
theorem turbo_run_zero_blocks (j : ℕ) : ∀ s : TurboState, s.best_value = some 0 →
    s.success_counter = 0 → s.failure_counter = 0 → (0 : ℕ) ≠ s.success_tolerance →
    1 ≤ s.failure_tolerance →
    ∃ r : Bool, turbo_run s (List.replicate (j * s.failure_tolerance) 0) =
      { s with
        length := s.length / 2 ^ j,
        success_counter := 0,
        failure_counter := 0,
        best_value := some 0,
        restart_triggered := r } := by
  induction j with
  | zero =>
    intro s hb hsc hfc _ _
    obtain ⟨d, bs, len, lmin, lmax, fc, ft, sc, st, bv, rt⟩ := s
    simp only at hb hsc hfc
    subst hb hsc hfc
    exact ⟨rt, by simp [turbo_run_nil]⟩
  | succ j ihj =>
    intro s hb hsc hfc hst hT
    obtain ⟨d, bs, len, lmin, lmax, fc, ft, sc, st, bv, rt⟩ := s
    simp only at hb hsc hfc hst hT
    subst hb hsc hfc
    have hsplit : (j + 1) * ft = ft + j * ft := by ring
    obtain ⟨r1, hr1⟩ := turbo_run_zeros ft ⟨d, bs, len, lmin, lmax, 0, ft, 0, st, some 0, rt⟩ hT rfl hst (by simp)
    dsimp only at hr1 ⊢
    rw [hsplit, List.replicate_add, turbo_run_append, hr1]
    obtain ⟨r2, hr2⟩ := ihj ⟨d, bs, len / 2, lmin, lmax, 0, ft, 0, st, some 0, r1⟩ rfl rfl rfl hst hT
    dsimp only at hr2
    rw [hr2]
    refine ⟨r2, ?_⟩
    simp only [TurboState.mk.injEq, and_true, true_and]
    rw [div_div, ← pow_succ']

/-- helper: a run of consecutive improving observations `b+1, ..., b+c` that stays
strictly below the success tolerance accumulates `c` successes and leaves `length`
untouched. -/
theorem turbo_run_incList (c : ℕ) : ∀ (s : TurboState) (b : ℚ), 1 ≤ c →
    s.best_value = some b → 0 ≤ b → b + c ≤ 1000 →
    s.success_counter + c < s.success_tolerance →
    (0 : ℕ) ≠ s.failure_tolerance → ¬ s.length < s.length_min →
    turbo_run s (incList b c) =
      { s with
        success_counter := s.success_counter + c,
        failure_counter := 0,
        best_value := some (b + c) } := by
  induction c with
  | zero => intro s b hc; omega
  | succ c ih =>
    intro s b _ hb hb0 hc1000 hsucc hft hlen
    have hcast : (1 : ℚ) ≤ ((c + 1 : ℕ) : ℚ) := by exact_mod_cast Nat.succ_le_succ (Nat.zero_le c)
    have hblt : b < 1000 := by push_cast at hc1000; linarith
    have himp : turbo_improves s.best_value (b + 1) = true := by
      rw [hb]
      exact turbo_improves_of_lt hb0 (by linarith)
    have h1 : s.success_counter + 1 ≠ s.success_tolerance := by omega
    rw [incList, turbo_run_cons, update_state_improve s (b + 1) himp h1 hft hlen, hb]
    simp only [Option.getD_some]
    rw [max_eq_right (show b ≤ b + 1 by linarith)]
    rcases Nat.eq_zero_or_pos c with hc0 | hc1
    · subst hc0
      rw [incList, turbo_run_nil]
      simp only [TurboState.mk.injEq]
      norm_num
    · have hstep := ih { s with success_counter := s.success_counter + 1, failure_counter := 0, best_value := some (b + 1) } (b + 1) hc1 rfl (by linarith) (by push_cast at hc1000 ⊢; linarith) (by show s.success_counter + 1 + c < s.success_tolerance; omega) hft hlen
      rw [hstep]
      simp only [TurboState.mk.injEq]
      norm_num
      constructor
      · omega
      · ring_nf

/-- helper: the post-init failure tolerance of a fresh state with `batch_size = 1` is
`max 4 dim`. -/
theorem failure_tolerance_init_one (d : ℕ) : failure_tolerance_init d 1 = max 4 d := by
  unfold failure_tolerance_init
  have h1 : max ((4 : ℚ) / 1) ((d : ℚ) / 1) = ((max 4 d : ℕ) : ℚ) := by
    push_cast
    simp
  rw [Nat.cast_one, h1, Int.ceil_natCast, Int.toNat_natCast]

/-- helper: the fresh state as an explicit record. -/
theorem turbo_init_eq (d : ℕ) :
    TurboState.init d = ⟨d, 1, 4/5, 1/128, 8/5, 0, max 4 d, 0, 10, none, false⟩ := by
  unfold TurboState.init
  rw [failure_tolerance_init_one]

/-- C7 counterexample: from a fresh 1-dimensional state (`failure_tolerance = 4`,
`length_min = 0.5^7 = 1/128`), 28 consecutive non-improving observations drive
`length` through 7 halvings to `0.8 / 128 = 1/160 < 1/128`: `update_state` has no
lower clamp, so `length` leaves `[length_min, length_max]`. -/
theorem C7_counterexample :
    (turbo_run (TurboState.init 1) (List.replicate 28 0)).length <
      (turbo_run (TurboState.init 1) (List.replicate 28 0)).length_min := by
  have h1 : TurboState.init 1 = ⟨1, 1, 4/5, 1/128, 8/5, 0, 4, 0, 10, none, false⟩ := by
    rw [turbo_init_eq]
    norm_num
  rw [h1]
  have hlist : List.replicate 28 (0 : ℚ) = 0 :: (List.replicate 3 0 ++ List.replicate (6 * 4) 0) := by
    rw [show (28 : ℕ) = 1 + (3 + 6 * 4) from rfl, List.replicate_add, List.replicate_add]
    rfl
  rw [hlist, turbo_run_cons]
  rw [update_state_none_fail _ 0 rfl (by decide) (by decide) (by norm_num)]
  dsimp only
  rw [turbo_run_append]
  obtain ⟨r1, hr1⟩ := turbo_run_zeros 3 ⟨1, 1, 4/5, 1/128, 8/5, 1, 4, 0, 10, some 0, false⟩
    (by norm_num) rfl (by decide) (by decide)
  dsimp only at hr1
  rw [hr1]
  obtain ⟨r2, hr2⟩ := turbo_run_zero_blocks 6 ⟨1, 1, 4/5/2, 1/128, 8/5, 0, 4, 0, 10, some 0, r1⟩
    rfl rfl rfl (by dsimp only; decide) (by dsimp only; decide)
  dsimp only at hr2
  rw [hr2]
  dsimp only
  norm_num

/-- C7 amended: one `update_state` call preserves nonnegativity of `length` and the
upper clamp `length ≤ length_max`, and whenever the updated `length` falls below
`length_min` the `restart_triggered` flag is set — but `length` is NOT clamped below:
it can leave `[length_min, length_max]` from below (see the counterexample), so only
the upper half of the claimed interval invariant holds. -/
theorem C7_update_state_amended (s : TurboState) (y : ℚ) (h0 : 0 ≤ s.length)
    (hmax : s.length ≤ s.length_max) :
    0 ≤ (update_state s y).length ∧
      (update_state s y).length ≤ (update_state s y).length_max ∧
      ((update_state s y).length < (update_state s y).length_min →
        (update_state s y).restart_triggered = true) := by
  obtain ⟨d, bs, len, lmin, lmax, fc, ft, sc, st, bv, rt⟩ := s
  dsimp only at h0 hmax
  unfold update_state
  dsimp only
  split_ifs <;> dsimp only <;> refine ⟨?_, ?_, ?_⟩ <;>
    first
      | rfl
      | (intro _; rfl)
      | (exact le_min (by linarith) (by linarith))
      | (exact min_le_right _ _)
      | linarith
      | (intro h; exact absurd h (by assumption))

/-- C7 amended witness: the invariant instantiated at a fresh 1-dimensional state and
a concrete observation. -/
theorem C7_update_state_amended_witness :
    0 ≤ (update_state (TurboState.init 1) 0).length ∧
      (update_state (TurboState.init 1) 0).length ≤ (update_state (TurboState.init 1) 0).length_max ∧
      ((update_state (TurboState.init 1) 0).length < (update_state (TurboState.init 1) 0).length_min →
        (update_state (TurboState.init 1) 0).restart_triggered = true) :=
  C7_update_state_amended (TurboState.init 1) 0 (by norm_num [TurboState.init])
    (by norm_num [TurboState.init])

/-- C8 counterexample: from a fresh 1-dimensional `TurboState`, 10 consecutive
observations that each improve on the running best by more than the relative
tolerance leave `length = 0.8` (not 1.6) and the success counter at 9 (not 0): the
first observation from the fresh state always counts as a failure, because
`best_value = -inf` makes the success test `max(Y) > -inf + 1e-3*inf = NaN` false, so
only 9 successes accumulate and the trust region does not expand. -/
theorem C8_counterexample :
    (turbo_run (TurboState.init 1) [1, 2, 3, 4, 5, 6, 7, 8, 9, 10]).length = 4/5 ∧
      (turbo_run (TurboState.init 1) [1, 2, 3, 4, 5, 6, 7, 8, 9, 10]).success_counter = 9 ∧
      ¬ ((4 : ℚ)/5 = 8/5) := by
  have h1 : TurboState.init 1 = ⟨1, 1, 4/5, 1/128, 8/5, 0, 4, 0, 10, none, false⟩ := by
    rw [turbo_init_eq]
    norm_num
  rw [h1]
  have hlist : ([1, 2, 3, 4, 5, 6, 7, 8, 9, 10] : List ℚ) = 1 :: incList 1 9 := by
    norm_num [incList]
  have hrun : turbo_run (⟨1, 1, 4/5, 1/128, 8/5, 0, 4, 0, 10, none, false⟩ : TurboState)
      [1, 2, 3, 4, 5, 6, 7, 8, 9, 10] = ⟨1, 1, 4/5, 1/128, 8/5, 0, 4, 9, 10, some 10, false⟩ := by
    rw [hlist, turbo_run_cons]
    rw [update_state_none_fail _ 1 rfl (by norm_num) (by norm_num) (by norm_num)]
    dsimp only
    rw [turbo_run_incList 9 ⟨1, 1, 4/5, 1/128, 8/5, 1, 4, 0, 10, some 1, false⟩ 1
      (by norm_num) rfl (by norm_num) (by norm_num) (by norm_num) (by norm_num) (by norm_num)]
    dsimp only
    norm_num
  exact ⟨by rw [hrun], by rw [hrun], by norm_num⟩

/-- C8 amended: for any dimension, from a fresh `TurboState` (length 0.8,
success_tolerance 10), feeding 11 consecutive improving observations — the first
necessarily counts as a failure since `best_value` starts at `-inf`, after which 10
consecutive successes accumulate — doubles `length` to 1.6 (clamped at
`length_max = 1.6`) and resets the success counter to 0; and feeding
`failure_tolerance` consecutive non-improving observations from a fresh state halves
`length` to 0.4 (this half of the claim holds as stated, because the first
observation already counts as a failure). -/
theorem C8_turbo_amended (d : ℕ) :
    (turbo_run (TurboState.init d) [1, 2, 3, 4, 5, 6, 7, 8, 9, 10, 11]).length = 8/5 ∧
      (turbo_run (TurboState.init d) [1, 2, 3, 4, 5, 6, 7, 8, 9, 10, 11]).success_counter = 0 ∧
      (turbo_run (TurboState.init d)
        (List.replicate (TurboState.init d).failure_tolerance 0)).length = 2/5 := by
  rw [turbo_init_eq d]
  have hT : 4 ≤ max 4 d := le_max_left 4 d
  have hlist : ([1, 2, 3, 4, 5, 6, 7, 8, 9, 10, 11] : List ℚ) = 1 :: (incList 1 9 ++ [11]) := by
    norm_num [incList]
  have hrun : turbo_run (⟨d, 1, 4/5, 1/128, 8/5, 0, max 4 d, 0, 10, none, false⟩ : TurboState)
      [1, 2, 3, 4, 5, 6, 7, 8, 9, 10, 11] =
      ⟨d, 1, 8/5, 1/128, 8/5, 0, max 4 d, 0, 10, some 11, false⟩ := by
    rw [hlist, turbo_run_cons]
    rw [update_state_none_fail _ 1 rfl (by dsimp only; decide) (by dsimp only; omega)
      (by dsimp only; norm_num)]
    dsimp only
    rw [turbo_run_append]
    rw [turbo_run_incList 9 ⟨d, 1, 4/5, 1/128, 8/5, 1, max 4 d, 0, 10, some 1, false⟩ 1
      (by norm_num) rfl (by norm_num) (by norm_num) (by dsimp only; norm_num)
      (by dsimp only; omega) (by dsimp only; norm_num)]
    dsimp only
    norm_num
    rw [turbo_run_cons, turbo_run_nil]
    rw [update_state_improve_expand _ 11 (by dsimp only; exact turbo_improves_of_lt (by norm_num) (by norm_num))
      (by norm_num) (by dsimp only; norm_num [min_self])]
    dsimp only
    norm_num [min_self]
  refine ⟨by rw [hrun], by rw [hrun], ?_⟩
  dsimp only
  obtain ⟨k, hk1, hk3⟩ : ∃ k, max 4 d = k + 1 ∧ 3 ≤ k := ⟨max 4 d - 1, by omega, by omega⟩
  rw [hk1, List.replicate_succ, turbo_run_cons]
  rw [update_state_none_fail _ 0 rfl (by dsimp only; decide) (by dsimp only; omega)
    (by dsimp only; norm_num)]
  dsimp only
  obtain ⟨r1, hr1⟩ := turbo_run_zeros k ⟨d, 1, 4/5, 1/128, 8/5, 1, k + 1, 0, 10, some 0, false⟩
    (by omega) rfl (by dsimp only; decide) (by dsimp only; omega)
  dsimp only at hr1
  rw [hr1]
  dsimp only
  norm_num
